import Mathlib

/-
Shallow embedding of `src/haystack/preview/pipeline.py` (the marshal/unmarshal
subsystem of a pipeline collection with document-store attachments).

Python dicts are modelled as insertion-ordered association lists with the
usual first-match lookup; Python exceptions are modelled by an error type,
and functions that can raise return `Except PyErr` or pair their result with
an `Option PyErr` when the mutations made before the raise must be observable.
-/

/-- Errors raised by the embedded code: `keyError` models Python `KeyError`,
`valueError` models `ValueError`, and the last two model the module's own
`NoSuchDocumentStoreError` and `NotADocumentStoreError` classes. -/
inductive PyErr where
  | keyError (key : String)
  | valueError (msg : String)
  | noSuchDocumentStoreError (store : String)
  | notADocumentStoreError (typ : String)
  deriving DecidableEq

/-- Python dict lookup `d[k]` (first matching key), returning `none` on a
missing key. -/
def dget? {α : Type} (d : List (String × α)) (k : String) : Option α :=
  match d with
  | [] => none
  | (k2, v) :: rest => if k2 = k then some v else dget? rest k

/-- Python `k in d` membership test on a dict. -/
def dmem {α : Type} (d : List (String × α)) (k : String) : Bool :=
  (dget? d k).isSome

/-- Python dict assignment `d[k] = v`: replaces the value at the first
occurrence of `k`, keeping its position, or appends a new entry. -/
def dset {α : Type} (d : List (String × α)) (k : String) (v : α) : List (String × α) :=
  match d with
  | [] => [(k, v)]
  | (k2, v2) :: rest => if k2 = k then (k2, v) :: rest else (k2, v2) :: dset rest k v

/-- Truthiness of an `Optional[str]` in Python: `None` and `""` are falsy. -/
def strTruthy : Option String → Bool
  | none => false
  | some s => !(s == "")

/-- Python `str(x)` for an `Optional[str]`, as used when formatting `None`
into an error message. -/
def optRepr : Option String → String
  | none => "None"
  | some s => s

/-- A document-store instance. `id` models Python object identity (two stores
are reference-equal exactly when their `id`s are equal); `marker` models the
`__haystack_document_store__` attribute checked by `add_document_store`;
`typ` is the type tag and `hash` the content hash that `to_dict` serializes;
`params` stands for the remaining init parameters of the serialized state. -/
structure StoreInst where
  id : Nat
  marker : Bool
  typ : String
  hash : Nat
  params : Nat
  deriving DecidableEq

/-- The dict produced by `DocumentStore.to_dict`: a `"type"` key, a `"hash"`
key (`none` once `del marshalled_store["hash"]` has removed it) and the
remaining init parameters. -/
structure MStore where
  typ : String
  hash : Option Nat
  params : Nat
  deriving DecidableEq

/-- Modelled from the spec: `DocumentStore.to_dict` (concrete store
implementations are external collaborators; the spec says a resource is
serialized "to its type tag + state + content hash"). -/
def StoreInst.to_dict (s : StoreInst) : MStore :=
  { typ := s.typ, hash := some s.hash, params := s.params }

/-- A component instance. `id` models Python object identity; `storeAware`
models `isinstance(instance, DocumentStoreAwareMixin)`; `document_store` is
the component's store pointer and `document_store_name` its
`_document_store_name` attribute. -/
structure Component where
  id : Nat
  storeAware : Bool
  document_store : Option StoreInst
  document_store_name : Option String
  deriving DecidableEq

/-- The mutable state of a `haystack.preview.Pipeline`:
`document_stores_connections` is `_document_stores_connections`
(component name → store name), `document_stores` is `_document_stores`
(store name → instance), and `components` is the underlying canals component
graph (component name → registered instance). -/
structure Pipeline where
  document_stores_connections : List (String × String)
  document_stores : List (String × StoreInst)
  components : List (String × Component)
  deriving DecidableEq

/-- `Pipeline.add_document_store` (pipeline.py lines 34-47): raises
`NotADocumentStoreError` when the instance lacks the
`__haystack_document_store__` marker, otherwise stores it under `name`,
overwriting any previous entry. Returns the pipeline state after the call
together with the raised error, if any. -/
def Pipeline.add_document_store (p : Pipeline) (name : String) (document_store : StoreInst) :
    Pipeline × Option PyErr :=
  if !document_store.marker then
    (p, some (.notADocumentStoreError document_store.typ))
  else
    ({ p with document_stores := dset p.document_stores name document_store }, none)

/-- Modelled from the spec: the external graph collaborator's component
registration (`canals.Pipeline.add_component`, invoked as
`super().add_component(name, instance)`). Per the wrapper's docstring it
raises `ValueError` "if a component with the same name already exists",
otherwise it registers the instance under `name`. -/
def canalsAddComponent (p : Pipeline) (name : String) (inst : Component) :
    Pipeline × Component × Option PyErr :=
  if dmem p.components name then
    (p, inst, some (.valueError ("a component named " ++ name ++ " already exists")))
  else
    ({ p with components := p.components ++ [(name, inst)] }, inst, none)

/-- Python `document_store not in self._document_stores` with
`document_store : Optional[str]`: `None` is never among the string keys. -/
def dmemOpt (d : List (String × StoreInst)) : Option String → Bool
  | none => false
  | some k => dmem d k

/-- `Pipeline.add_component` (pipeline.py lines 69-113), with every heap
mutation explicit: returns the pipeline state after the call, the component
instance after the call, and the raised error, if any. The branch structure
mirrors the source:
line 90 `if document_store and instance.document_store` (the error message
 evaluates `self._document_stores_connections[name]`, which raises `KeyError`
 when `name` is not a key);
line 96 `if not document_store and not instance.document_store`;
line 99 `if document_store not in self._document_stores` (note: also taken
 when `document_store` is `None`, since `None` is never a key);
line 105 `if not instance.document_store` performs the binding;
line 110 `elif document_store` rejects stores on unaware components;
line 113 delegates to `super().add_component`. -/
def Pipeline.add_component (p : Pipeline) (name : String) (inst : Component)
    (document_store : Option String) : Pipeline × Component × Option PyErr :=
  if inst.storeAware then
    if strTruthy document_store && inst.document_store.isSome then
      match dget? p.document_stores_connections name with
      | none => (p, inst, some (.keyError name))
      | some conn =>
          (p, inst, some (.valueError
            ("Component " ++ name ++ " is already connected to Document Store " ++ conn)))
    else if !strTruthy document_store && inst.document_store.isNone then
      (p, inst, some (.valueError ("Component " ++ name ++ " needs a DocumentStore")))
    else if !dmemOpt p.document_stores document_store then
      (p, inst, some (.noSuchDocumentStoreError (optRepr document_store)))
    else if inst.document_store.isNone then
      match document_store with
      | none => (p, inst, some (.keyError "None"))
      | some k =>
          match dget? p.document_stores k with
          | none => (p, inst, some (.keyError k))
          | some store =>
              let p2 := { p with
                document_stores_connections := dset p.document_stores_connections name k }
              let inst2 := { inst with
                document_store := some store, document_store_name := some k }
              canalsAddComponent p2 name inst2
    else
      canalsAddComponent p name inst
  else if strTruthy document_store then
    (p, inst, some (.valueError ("Component " ++ name ++ " does not support DocumentStores")))
  else
    canalsAddComponent p name inst

/-- The per-pipeline section of the marshalled document: `graphComponents` is
the component-graph section produced by the external canals serializer
(modelled as the serialized name → store-aware flag of each registered
component), and `store_connections` is the table added by
`marshal_pipelines`. -/
structure MPipeline where
  graphComponents : List (String × Bool)
  store_connections : List (String × String)
  deriving DecidableEq

/-- The marshalled document: a pipelines table and the global `"stores"`
table. -/
structure MDoc where
  pipelines : List (String × MPipeline)
  stores : List (String × MStore)
  deriving DecidableEq

/-- Modelled from the spec: the per-pipeline graph section produced by the
external `marshal_canals_pipelines` collaborator ("Delegate component-graph
structure serialization to the external graph collaborator"). -/
def canalsMarshalPipeline (p : Pipeline) : List (String × Bool) :=
  p.components.map (fun pr => (pr.1, pr.2.storeAware))

/-- Python `copy.copy` of the `_document_stores_connections` dict: allocates
a fresh dict with the same entries, so writes to the copy never reach the
pipeline's own table. In the embedding the copy has the same value; the
source's later writes are modelled as rebinding the local
`store_connections`, never as a write into the pipeline. -/
def copyDict (d : List (String × String)) : List (String × String) := d

/-- The generator of pipeline.py line 191:
`any(marshalled_store["hash"] == s["hash"] for s in marshalled_stores.values())`.
Each comparison evaluates `marshalled_store["hash"]` and then `s["hash"]`;
a missing `"hash"` key raises `KeyError` at that point. -/
def anyHashEq (mhash : Option Nat) : List (String × MStore) → Except PyErr Bool
  | [] => .ok false
  | (_, s) :: rest =>
    match mhash with
    | none => .error (.keyError "hash")
    | some h =>
      match s.hash with
      | none => .error (.keyError "hash")
      | some h2 => if h = h2 then .ok true else anyHashEq mhash rest

/-- The while loop of pipeline.py lines 197-201: starting from the store's
local name, keep trying `store_name + "_" + str(i)` for `i = 0, 1, 2, ...`
until the candidate is not a key of `marshalled_stores`. The loop always
terminates because the suffixed candidates are pairwise distinct and the
table is finite; `fuel` makes the recursion structural and is chosen large
enough that it is never exhausted first. -/
def uniqueNameLoop (store_name : String) (acc : List (String × MStore)) :
    Nat → Nat → String → String
  | 0, _, cur => cur
  | fuel + 1, i, cur =>
    if dmem acc cur then
      uniqueNameLoop store_name acc fuel (i + 1) (store_name ++ "_" ++ toString i)
    else cur

/-- The unique-name computation of pipeline.py lines 197-201, entered with
`unique_store_name = store_name` and `i = 0`. -/
def uniqueName (store_name : String) (acc : List (String × MStore)) : String :=
  uniqueNameLoop store_name acc (acc.length + 2) 0 store_name

/-- The inner loop of `marshal_pipelines` (pipeline.py lines 188-209): walks
one pipeline's `_document_stores` table, threading the pipeline's working
copy `store_connections` of its bindings and the global `marshalled_stores`
table. A raised exception aborts the whole marshal call. -/
def marshalStoresLoop (conns : List (String × String)) (acc : List (String × MStore)) :
    List (String × StoreInst) → Except PyErr (List (String × String) × List (String × MStore))
  | [] => .ok (conns, acc)
  | (store_name, store) :: rest =>
    let marshalled_store := store.to_dict
    match anyHashEq marshalled_store.hash acc with
    | .error e => .error e
    | .ok true => marshalStoresLoop conns acc rest
    | .ok false =>
      match marshalled_store.hash with
      | none => .error (.keyError "hash")
      | some _ =>
        let marshalled_store2 : MStore := { marshalled_store with hash := none }
        let unique_store_name := uniqueName store_name acc
        let conns2 :=
          if unique_store_name ≠ store_name then
            conns.map (fun pr => if pr.2 = store_name then (pr.1, unique_store_name) else pr)
          else conns
        marshalStoresLoop conns2 (dset acc unique_store_name marshalled_store2) rest

/-- The outer loop of `marshal_pipelines` (pipeline.py lines 186-210): for
each pipeline, copies its connections table, runs the store loop, and
records the pipeline's marshalled section. The pipeline collection is
threaded through and returned so that every heap location the source could
write is explicit in the result; the loop's only write target is the copied
connections table. -/
def marshalLoop (acc : List (String × MStore)) :
    List (String × Pipeline) →
    Except PyErr (List (String × MPipeline) × List (String × MStore)) × List (String × Pipeline)
  | [] => (.ok ([], acc), [])
  | (pipeline_name, pipeline) :: rest =>
    let store_connections := copyDict pipeline.document_stores_connections
    match marshalStoresLoop store_connections acc pipeline.document_stores with
    | .error e => (.error e, (pipeline_name, pipeline) :: rest)
    | .ok (conns2, acc2) =>
      match marshalLoop acc2 rest with
      | (.error e, rest2) => (.error e, (pipeline_name, pipeline) :: rest2)
      | (.ok (mps, acc3), rest2) =>
        (.ok ((pipeline_name,
               { graphComponents := canalsMarshalPipeline pipeline,
                 store_connections := conns2 }) :: mps, acc3),
         (pipeline_name, pipeline) :: rest2)

/-- `marshal_pipelines` (pipeline.py lines 166-212) with the pipeline
collection threaded through: returns the produced document (or the raised
exception) together with the pipeline collection as it stands after the
call. -/
def marshal_pipelines_st (pipelines : List (String × Pipeline)) :
    Except PyErr MDoc × List (String × Pipeline) :=
  match marshalLoop [] pipelines with
  | (.error e, ps) => (.error e, ps)
  | (.ok (mps, stores), ps) => (.ok { pipelines := mps, stores := stores }, ps)

/-- `marshal_pipelines` (pipeline.py lines 166-212): the produced document,
or the raised exception. -/
def marshal_pipelines (pipelines : List (String × Pipeline)) : Except PyErr MDoc :=
  (marshal_pipelines_st pipelines).1

/-- Modelled from the spec: the registry lookup plus `from_dict`
reconstruction of one store entry (`document_store.registry[store["type"]]`
followed by `cls.from_dict(store)`; the decorator module is an external
collaborator). The registry is modelled as the list of registered type tags,
all sharing one reconstructor shape. `ctr` is the allocation counter: each
call yields a fresh object identity, and — per the spec's note that the
content hash must be a pure function of the serialized state — the rebuilt
instance's hash is derived from its state. -/
def store_from_dict (m : MStore) (ctr : Nat) : StoreInst :=
  { id := ctr, marker := true, typ := m.typ, hash := m.params, params := m.params }

/-- The store-reconstruction loop of `unmarshal_pipelines` (pipeline.py
lines 227-230): `stores[store_name] = document_store.registry[store["type"]].from_dict(store)`
for each entry of the document's global table, raising `KeyError` when a
type tag is not registered. -/
def unmarshalStores (registry : List String) :
    List (String × MStore) → List (String × StoreInst) → Nat →
    Except PyErr (List (String × StoreInst) × Nat)
  | [], acc, ctr => .ok (acc, ctr)
  | (store_name, store) :: rest, acc, ctr =>
    if registry.contains store.typ then
      unmarshalStores registry rest (dset acc store_name (store_from_dict store ctr)) (ctr + 1)
    else
      .error (.keyError store.typ)

/-- Modelled from the spec: `_unmarshal_components` of the external graph
collaborator — reconstructs one fresh component instance per component entry
across the whole document, keyed by name ("producing a name→component
mapping across the whole document"). Reconstructed components start with no
store bound. -/
def canalsAddFresh (acc2 : List (String × Component) × Nat) (c : String × Bool) :
    List (String × Component) × Nat :=
  (dset acc2.1 c.1
    { id := acc2.2, storeAware := c.2,
      document_store := none, document_store_name := none },
   acc2.2 + 1)

def canalsUnmarshalComponents (data : MDoc) (ctr : Nat) : List (String × Component) × Nat :=
  data.pipelines.foldl
    (fun acc pr => pr.2.graphComponents.foldl canalsAddFresh acc)
    ([], ctr)

/-- One pipeline's reconnection loop (pipeline.py lines 235-237):
`components[component_name].document_store = stores[store_name]` for each
entry of its `store_connections` table. Python evaluates the right-hand side
first, so a missing store name raises before a missing component name. -/
def reconnectPipe (stores : List (String × StoreInst)) :
    List (String × String) → List (String × Component) →
    Except PyErr (List (String × Component))
  | [], components => .ok components
  | (component_name, store_name) :: rest, components =>
    match dget? stores store_name with
    | none => .error (.keyError store_name)
    | some st =>
      match dget? components component_name with
      | none => .error (.keyError component_name)
      | some comp =>
        reconnectPipe stores rest
          (dset components component_name { comp with document_store := some st })

/-- The outer reconnection loop of `unmarshal_pipelines` (pipeline.py lines
233-237), over every pipeline section of the document. -/
def reconnect (stores : List (String × StoreInst)) :
    List (String × MPipeline) → List (String × Component) →
    Except PyErr (List (String × Component))
  | [], components => .ok components
  | (_, mp) :: rest, components =>
    match reconnectPipe stores mp.store_connections components with
    | .error e => .error e
    | .ok components2 => reconnect stores rest components2

/-- Modelled from the spec: `_unmarshal_pipelines` of the external graph
collaborator — assembles one pipeline per document section from the already
resource-bound components ("Delegate pipeline assembly ... to the external
graph collaborator, using the now resource-bound components"). The assembled
pipelines hold the shared component instances in their graphs; their own
store tables start empty as in a fresh construction. -/
def canalsUnmarshalPipelines (data : MDoc) (components : List (String × Component)) :
    List (String × Pipeline) :=
  data.pipelines.map
    (fun pr =>
      (pr.1,
       { document_stores_connections := [],
         document_stores := [],
         components := pr.2.graphComponents.filterMap
           (fun c => (dget? components c.1).map (fun comp => (c.1, comp))) }))

/-- `unmarshal_pipelines` (pipeline.py lines 215-241): reconstruct one store
instance per global-table entry, reconstruct the components, re-wire each
component named in a `store_connections` table to the shared store instance,
then assemble the pipelines. Any raised exception aborts the call with no
pipeline collection returned. -/
def unmarshal_pipelines (registry : List String) (data : MDoc) :
    Except PyErr (List (String × Pipeline)) :=
  match unmarshalStores registry data.stores [] 0 with
  | .error e => .error e
  | .ok (stores, ctr) =>
    let components := (canalsUnmarshalComponents data ctr).1
    match reconnect stores data.pipelines components with
    | .error e => .error e
    | .ok components2 => .ok (canalsUnmarshalPipelines data components2)

/-- An operation of the attachment layer on one pipeline, for stating the
binding invariant over operation sequences. -/
inductive PipeOp where
  | addStore (name : String) (store : StoreInst)
  | addComp (name : String) (inst : Component) (document_store : Option String)
  deriving DecidableEq

/-- Run one operation, keeping the state the call leaves behind whether or
not it raises (a raised exception propagates to the caller but the
mutations made before the raise persist). -/
def runOp (p : Pipeline) : PipeOp → Pipeline
  | .addStore n s => (p.add_document_store n s).1
  | .addComp n i ds => (p.add_component n i ds).1

/-- Run a sequence of operations. -/
def runOps (p : Pipeline) : List PipeOp → Pipeline
  | [] => p
  | op :: rest => runOps (runOp p op) rest

/-- The symmetric binding invariant of one pipeline, as a decidable check:
every entry `(cname, sname)` of `_document_stores_connections` has a
component registered under `cname` whose remembered binding name is `sname`
and whose store pointer is the very instance registered under `sname` in
`_document_stores`. -/
def bindingInvariantB (p : Pipeline) : Bool :=
  p.document_stores_connections.all
    (fun pr =>
      match dget? p.components pr.1, dget? p.document_stores pr.2 with
      | some comp, some st =>
        comp.document_store_name == some pr.2 && comp.document_store == some st
      | _, _ => false)

/-- Dict well-formedness of a pipeline state: each of its three tables has
pairwise-distinct keys, as every Python dict does. -/
def pipelineWF (p : Pipeline) : Prop :=
  (p.document_stores_connections.map Prod.fst).Nodup ∧
  (p.document_stores.map Prod.fst).Nodup ∧
  (p.components.map Prod.fst).Nodup

instance (p : Pipeline) : Decidable (pipelineWF p) := by
  unfold pipelineWF; infer_instance

/-- The side condition on one operation under which the amended invariant
claim holds: an `add_document_store` call must use a store name that no
current connection refers to (re-registering a referenced name swaps the
instance out from under the bound component), and an `add_component` call
must complete without raising (a failed delegated registration leaves a
half-written binding behind). -/
def opOk (p : Pipeline) : PipeOp → Bool
  | .addStore n _ => p.document_stores_connections.all (fun pr => !(pr.2 == n))
  | .addComp n i ds => ((p.add_component n i ds).2.2).isNone

/-- The side conditions threaded along a sequence of operations. -/
def opsOk (p : Pipeline) : List PipeOp → Bool
  | [] => true
  | op :: rest => opOk p op && opsOk (runOp p op) rest

/-- The names of all components serialized anywhere in a document's pipeline
sections. -/
def docCompNames (data : MDoc) : List String :=
  data.pipelines.flatMap (fun pr => pr.2.graphComponents.map Prod.fst)

/-- All `(componentName, storeName)` entries of every pipeline section's
`store_connections` table of a document. -/
def allBindings (data : MDoc) : List (String × String) :=
  data.pipelines.flatMap (fun pr => pr.2.store_connections)

deriving instance DecidableEq for Except

theorem dget?_dset_self {α : Type} (l : List (String × α)) (k : String) (v : α) :
    dget? (dset l k v) k = some v := by
  induction l with
  | nil => simp [dset, dget?]
  | cons pr rest ih =>
    obtain ⟨k2, v2⟩ := pr
    by_cases h : k2 = k <;> simp [dset, dget?, h, ih]

theorem dget?_dset_ne {α : Type} (l : List (String × α)) (k k2 : String) (v : α)
    (h : k2 ≠ k) : dget? (dset l k v) k2 = dget? l k2 := by
  induction l with
  | nil => simp [dset, dget?, Ne.symm h]
  | cons pr rest ih =>
    obtain ⟨k3, v3⟩ := pr
    by_cases h3 : k3 = k
    · have hne : ¬ k3 = k2 := by rw [h3]; exact fun hc => h hc.symm
      simp [dset, dget?, h3, hne, h, Ne.symm h]
    · by_cases h4 : k3 = k2 <;> simp [dset, dget?, h3, h4, h, Ne.symm h, ih]

theorem dget?_append_left {α : Type} (l l2 : List (String × α)) (k : String) (v : α)
    (h : dget? l k = some v) : dget? (l ++ l2) k = some v := by
  induction l with
  | nil => simp [dget?] at h
  | cons pr rest ih =>
    obtain ⟨k2, v2⟩ := pr
    by_cases h2 : k2 = k <;> simp_all [dget?]

theorem dget?_append_right {α : Type} (l l2 : List (String × α)) (k : String)
    (h : dget? l k = none) : dget? (l ++ l2) k = dget? l2 k := by
  induction l with
  | nil => simp
  | cons pr rest ih =>
    obtain ⟨k2, v2⟩ := pr
    by_cases h2 : k2 = k <;> simp_all [dget?]

theorem dget?_eq_none_iff {α : Type} (l : List (String × α)) (k : String) :
    dget? l k = none ↔ k ∉ l.map Prod.fst := by
  induction l with
  | nil => simp [dget?]
  | cons pr rest ih =>
    obtain ⟨k2, v2⟩ := pr
    by_cases h2 : k2 = k
    · subst h2
      simp [dget?]
    · have h3 : ¬ k = k2 := fun hc => h2 hc.symm
      simp [dget?, h2, h3, ih]

theorem dget?_mem {α : Type} (l : List (String × α)) (k : String) (v : α)
    (h : dget? l k = some v) : (k, v) ∈ l := by
  induction l with
  | nil => simp [dget?] at h
  | cons pr rest ih =>
    obtain ⟨k2, v2⟩ := pr
    by_cases h2 : k2 = k
    · subst h2
      simp [dget?] at h
      rw [← h]
      exact List.mem_cons_self _ _
    · simp [dget?, h2] at h
      exact List.mem_cons_of_mem _ (ih h)

theorem mem_dset {α : Type} (l : List (String × α)) (k : String) (v : α) (pr : String × α)
    (h : pr ∈ dset l k v) : pr ∈ l ∨ pr = (k, v) := by
  induction l with
  | nil =>
    simp [dset] at h
    right
    exact h
  | cons pr2 rest ih =>
    obtain ⟨k2, v2⟩ := pr2
    by_cases h2 : k2 = k
    · subst h2
      simp [dset] at h
      rcases h with h | h
      · right; rw [h]
      · left; simp [h]
    · simp [dset, h2] at h
      rcases h with h | h
      · left; simp [h]
      · rcases ih h with h3 | h3
        · left; simp [h3]
        · right; exact h3

theorem mem_map_fst_dset {α : Type} (l : List (String × α)) (k x : String) (v : α)
    (h : x ∈ (dset l k v).map Prod.fst) : x ∈ l.map Prod.fst ∨ x = k := by
  simp only [List.mem_map] at h
  obtain ⟨pr, hpr, hx⟩ := h
  rcases mem_dset l k v pr hpr with h2 | h2
  · left
    exact List.mem_map.mpr ⟨pr, h2, hx⟩
  · right
    rw [h2] at hx
    exact hx.symm

theorem nodup_map_fst_dset {α : Type} (l : List (String × α)) (k : String) (v : α)
    (h : (l.map Prod.fst).Nodup) : ((dset l k v).map Prod.fst).Nodup := by
  induction l with
  | nil => simp [dset]
  | cons pr rest ih =>
    obtain ⟨k2, v2⟩ := pr
    simp only [List.map_cons, List.nodup_cons] at h
    by_cases h2 : k2 = k
    · have hd : dset ((k2, v2) :: rest) k v = (k2, v) :: rest := by
        simp [dset, h2]
      rw [hd]
      simpa using h
    · have hd : dset ((k2, v2) :: rest) k v = (k2, v2) :: dset rest k v := by
        simp [dset, h2]
      rw [hd]
      simp only [List.map_cons, List.nodup_cons]
      refine ⟨fun hc => ?_, ih h.2⟩
      rcases mem_map_fst_dset rest k k2 v hc with h3 | h3
      · exact h.1 h3
      · exact h2 h3

theorem dmem_dset {α : Type} (l : List (String × α)) (k k2 : String) (v : α) :
    dmem (dset l k v) k2 = (k2 == k || dmem l k2) := by
  by_cases h : k2 = k
  · subst h; simp [dmem, dget?_dset_self]
  · simp [dmem, dget?_dset_ne l k k2 v h, h]

theorem dmem_dset_of_mem {α : Type} (l : List (String × α)) (k k2 : String) (v v0 : α)
    (h : dget? l k = some v0) : dmem (dset l k v) k2 = dmem l k2 := by
  rw [dmem_dset]
  by_cases h2 : k2 = k
  · subst h2; simp [dmem, h]
  · simp [h2]

theorem marshalLoop_snd (acc : List (String × MStore)) (ps : List (String × Pipeline)) :
    (marshalLoop acc ps).2 = ps := by
  induction ps generalizing acc with
  | nil => rfl
  | cons pr rest ih =>
    obtain ⟨pn, p⟩ := pr
    cases hs : marshalStoresLoop (copyDict p.document_stores_connections) acc p.document_stores with
    | error e => simp [marshalLoop, hs]
    | ok res =>
      obtain ⟨conns2, acc2⟩ := res
      have h2 := ih acc2
      cases hml : marshalLoop acc2 rest with
      | mk r1 r2 =>
        rw [hml] at h2
        simp only at h2
        cases r1 with
        | error e => simp [marshalLoop, hs, hml, h2]
        | ok v =>
          obtain ⟨mps, acc3⟩ := v
          simp [marshalLoop, hs, hml, h2]

/-- C9: `marshal_pipelines` does not mutate the live pipelines. In the
state-threaded embedding `marshal_pipelines_st` every heap location the
source can write is explicit, and the source's only written table is the
`copy` made of each connections table; accordingly the pipeline collection
after the call — store tables, store-connections tables and component store
pointers included — is exactly the input, whether the call returns a
document or raises. -/
theorem marshal_pipelines_preserves_pipelines (pipelines : List (String × Pipeline)) :
    (marshal_pipelines_st pipelines).2 = pipelines := by
  unfold marshal_pipelines_st
  have h := marshalLoop_snd [] pipelines
  cases hml : marshalLoop [] pipelines with
  | mk r1 r2 =>
    rw [hml] at h
    simp only at h
    cases r1 with
    | error e => simpa using h
    | ok v =>
      obtain ⟨mps, stores⟩ := v
      simpa using h

/-- C1: the claim fails on the code. Evaluating `marshal_pipelines` on two
pipelines whose single stores serialize to the same content hash raises
`KeyError "hash"` — the dedup check of pipeline.py line 191 reads the
`"hash"` key of entries already in the global table, but line 194 deleted
that key before the entry was inserted — so no document with a single
deduplicated entry is ever produced. -/
theorem marshal_pipelines_equal_hash_dedup_crashes :
    marshal_pipelines
      [("p1", { document_stores_connections := [("A", "r")],
                document_stores :=
                  [("r", { id := 1, marker := true, typ := "MemoryDocumentStore", hash := 7, params := 3 })],
                components :=
                  [("A", { id := 10, storeAware := true,
                           document_store :=
                             some { id := 1, marker := true, typ := "MemoryDocumentStore", hash := 7, params := 3 },
                           document_store_name := some "r" })] }),
       ("p2", { document_stores_connections := [("C", "r")],
                document_stores :=
                  [("r", { id := 2, marker := true, typ := "MemoryDocumentStore", hash := 7, params := 3 })],
                components :=
                  [("C", { id := 11, storeAware := true,
                           document_store :=
                             some { id := 2, marker := true, typ := "MemoryDocumentStore", hash := 7, params := 3 },
                           document_store_name := some "r" })] })]
      = .error (.keyError "hash") := by decide

/-- C2: the claim fails on the code. Evaluating `marshal_pipelines` on two
pipelines that each register a store under the local name `"store"` with
different content hashes raises `KeyError "hash"` at the dedup check
(pipeline.py line 191 reads the `"hash"` key line 194 stripped from the
first inserted entry), so the collision-renaming loop of lines 197-207 is
never reached and no document with names `"store"` and `"store_0"` is
produced. -/
theorem marshal_pipelines_name_collision_crashes :
    marshal_pipelines
      [("p1", { document_stores_connections := [("A", "store")],
                document_stores :=
                  [("store", { id := 1, marker := true, typ := "MemoryDocumentStore", hash := 7, params := 3 })],
                components :=
                  [("A", { id := 10, storeAware := true,
                           document_store :=
                             some { id := 1, marker := true, typ := "MemoryDocumentStore", hash := 7, params := 3 },
                           document_store_name := some "store" })] }),
       ("p2", { document_stores_connections := [("C", "store")],
                document_stores :=
                  [("store", { id := 2, marker := true, typ := "MemoryDocumentStore", hash := 9, params := 4 })],
                components :=
                  [("C", { id := 11, storeAware := true,
                           document_store :=
                             some { id := 2, marker := true, typ := "MemoryDocumentStore", hash := 9, params := 4 },
                           document_store_name := some "store" })] })]
      = .error (.keyError "hash") := by decide

/-- C4: the claim fails on the code. `add_component` on a store-aware
component that already holds a document store, with no `document_store`
name supplied, does not simply register the component: the membership test
of pipeline.py line 99 runs with `document_store = None`, `None` is never a
key of `_document_stores`, and the call raises `NoSuchDocumentStoreError`
for the name `"None"` — even when the very store the component holds is
registered in this pipeline. The returned state also shows no registration
took place. -/
theorem add_component_prebound_without_name_raises :
    Pipeline.add_component
      { document_stores_connections := [],
        document_stores := [("r", { id := 1, marker := true, typ := "MemoryDocumentStore", hash := 7, params := 3 })],
        components := [] }
      "writer"
      { id := 10, storeAware := true,
        document_store := some { id := 1, marker := true, typ := "MemoryDocumentStore", hash := 7, params := 3 },
        document_store_name := some "r" }
      none
    = ({ document_stores_connections := [],
         document_stores := [("r", { id := 1, marker := true, typ := "MemoryDocumentStore", hash := 7, params := 3 })],
         components := [] },
       { id := 10, storeAware := true,
         document_store := some { id := 1, marker := true, typ := "MemoryDocumentStore", hash := 7, params := 3 },
         document_store_name := some "r" },
       some (.noSuchDocumentStoreError "None")) := by decide

/-- C6: the claim fails on the code. When the component already holds a
store and a `document_store` name is also supplied, but the existing
binding was recorded through a different pipeline (so this pipeline's
`_document_stores_connections` has no entry for the component name), the
`raise ValueError` of pipeline.py lines 91-94 evaluates
`self._document_stores_connections[name]` inside its message and that
lookup raises a bare `KeyError` instead of the intended double-binding
`ValueError`. -/
theorem add_component_prebound_with_name_raises_keyerror :
    Pipeline.add_component
      { document_stores_connections := [],
        document_stores := [("s2", { id := 2, marker := true, typ := "MemoryDocumentStore", hash := 9, params := 4 })],
        components := [] }
      "writer"
      { id := 10, storeAware := true,
        document_store := some { id := 1, marker := true, typ := "MemoryDocumentStore", hash := 7, params := 3 },
        document_store_name := some "r" }
      (some "s2")
    = ({ document_stores_connections := [],
         document_stores := [("s2", { id := 2, marker := true, typ := "MemoryDocumentStore", hash := 9, params := 4 })],
         components := [] },
       { id := 10, storeAware := true,
         document_store := some { id := 1, marker := true, typ := "MemoryDocumentStore", hash := 7, params := 3 },
         document_store_name := some "r" },
       some (.keyError "writer")) := by decide

/-- C7: `add_component` on a component that is not store-aware, with a
document store name supplied, raises `ValueError` (the spec's
`UnsupportedAttachment`) and returns the pipeline's tables and the
component exactly as they were — all validation happens before any
mutation. -/
theorem add_component_unaware_with_store_rejected
    (p : Pipeline) (name : String) (inst : Component) (document_store : Option String)
    (h1 : inst.storeAware = false) (h2 : strTruthy document_store = true) :
    Pipeline.add_component p name inst document_store =
      (p, inst, some (.valueError ("Component " ++ name ++ " does not support DocumentStores"))) := by
  simp [Pipeline.add_component, h1, h2]

/-- Witness for C7: a concrete store-unaware component with a store name. -/
theorem add_component_unaware_with_store_rejected_witness :
    Pipeline.add_component
      { document_stores_connections := [], document_stores := [], components := [] }
      "conv" { id := 1, storeAware := false, document_store := none, document_store_name := none }
      (some "s")
    = ({ document_stores_connections := [], document_stores := [], components := [] },
       { id := 1, storeAware := false, document_store := none, document_store_name := none },
       some (.valueError ("Component " ++ "conv" ++ " does not support DocumentStores"))) :=
  add_component_unaware_with_store_rejected _ "conv" _ (some "s") (by decide) (by decide)

/-- C10: when the delegated canals registration (invoked last) fails
because a component with the same name is already in the graph, the store
binding written just before — the store-connections entry, the component's
store pointer and its remembered store name — persists in the state the
failed call leaves behind: nothing is rolled back. -/
theorem add_component_failed_delegation_keeps_binding
    (p : Pipeline) (name k : String) (inst : Component) (store : StoreInst)
    (haware : inst.storeAware = true) (hfree : inst.document_store = none)
    (hk : (k == "") = false) (hlook : dget? p.document_stores k = some store)
    (hdup : dmem p.components name = true) :
    Pipeline.add_component p name inst (some k) =
      ({ p with document_stores_connections := dset p.document_stores_connections name k },
       { inst with document_store := some store, document_store_name := some k },
       some (.valueError ("a component named " ++ name ++ " already exists"))) := by
  have hmem : dmemOpt p.document_stores (some k) = true := by
    simp [dmemOpt, dmem, hlook]
  simp [Pipeline.add_component, strTruthy, canalsAddComponent,
        haware, hfree, hk, hlook, hdup, hmem]

/-- Witness for C10: a concrete pipeline whose graph already holds a
component named `"c"`; the failed call leaves the fresh binding in place. -/
theorem add_component_failed_delegation_keeps_binding_witness :
    Pipeline.add_component
      { document_stores_connections := [],
        document_stores := [("s", { id := 1, marker := true, typ := "MemoryDocumentStore", hash := 7, params := 3 })],
        components := [("c", { id := 40, storeAware := false, document_store := none, document_store_name := none })] }
      "c" { id := 30, storeAware := true, document_store := none, document_store_name := none }
      (some "s")
    = ({ document_stores_connections := [("c", "s")],
         document_stores := [("s", { id := 1, marker := true, typ := "MemoryDocumentStore", hash := 7, params := 3 })],
         components := [("c", { id := 40, storeAware := false, document_store := none, document_store_name := none })] },
       { id := 30, storeAware := true,
         document_store := some { id := 1, marker := true, typ := "MemoryDocumentStore", hash := 7, params := 3 },
         document_store_name := some "s" },
       some (.valueError ("a component named " ++ "c" ++ " already exists"))) :=
  add_component_failed_delegation_keeps_binding _ "c" "s" _ _
    (by decide) (by decide) (by decide) (by decide) (by decide)

theorem dmem_cons {α : Type} (n : String) (v : α) (rest : List (String × α)) (k : String) :
    dmem ((n, v) :: rest) k = (n == k || dmem rest k) := by
  by_cases h : n = k <;> simp [dmem, dget?, h]

theorem unmarshalStores_ok (registry : List String) (entries : List (String × MStore))
    (acc : List (String × StoreInst)) (ctr : Nat)
    (hreg : ∀ pr ∈ entries, registry.contains pr.2.typ = true) :
    ∃ res ctr2, unmarshalStores registry entries acc ctr = .ok (res, ctr2) := by
  induction entries generalizing acc ctr with
  | nil => exact ⟨acc, ctr, rfl⟩
  | cons pr rest ih =>
    obtain ⟨n, m⟩ := pr
    have h1 : registry.contains m.typ = true := hreg (n, m) (List.mem_cons_self _ _)
    obtain ⟨res, ctr2, h2⟩ := ih (dset acc n (store_from_dict m ctr)) (ctr + 1)
      (fun q hq => hreg q (List.mem_cons_of_mem _ hq))
    refine ⟨res, ctr2, ?_⟩
    simp only [unmarshalStores]
    rw [if_pos h1]
    exact h2

theorem unmarshalStores_keys (registry : List String) (entries : List (String × MStore))
    (acc : List (String × StoreInst)) (ctr : Nat) (res : List (String × StoreInst)) (ctr2 : Nat)
    (h : unmarshalStores registry entries acc ctr = .ok (res, ctr2)) (k : String) :
    dmem res k = (dmem acc k || dmem entries k) := by
  induction entries generalizing acc ctr with
  | nil =>
    simp only [unmarshalStores, Except.ok.injEq, Prod.mk.injEq] at h
    simp [← h.1, dmem, dget?]
  | cons pr rest ih =>
    obtain ⟨n, m⟩ := pr
    simp only [unmarshalStores] at h
    by_cases hr : registry.contains m.typ = true
    · rw [if_pos hr] at h
      have h3 := ih (dset acc n (store_from_dict m ctr)) (ctr + 1) h
      rw [h3, dmem_dset, dmem_cons]
      by_cases hkn : k = n
      · subst hkn
        simp
      · have h4 : (k == n) = false := by simp [hkn]
        have h5 : (n == k) = false := by
          simp only [beq_eq_false_iff_ne, ne_eq]
          exact fun hc => hkn hc.symm
        rw [h4, h5]
        simp
    · rw [if_neg hr] at h
      simp at h

theorem reconnectPipe_error_shape (stores : List (String × StoreInst))
    (conns : List (String × String)) (comps : List (String × Component)) (e : PyErr)
    (h : reconnectPipe stores conns comps = .error e) : ∃ k, e = .keyError k := by
  induction conns generalizing comps with
  | nil => simp [reconnectPipe] at h
  | cons pr rest ih =>
    obtain ⟨c, s⟩ := pr
    cases hst : dget? stores s with
    | none =>
      simp [reconnectPipe, hst] at h
      exact ⟨s, h.symm⟩
    | some st =>
      cases hcm : dget? comps c with
      | none =>
        simp [reconnectPipe, hst, hcm] at h
        exact ⟨c, h.symm⟩
      | some comp =>
        simp only [reconnectPipe, hst, hcm] at h
        exact ih _ h

theorem reconnect_error_shape (stores : List (String × StoreInst))
    (mps : List (String × MPipeline)) (comps : List (String × Component)) (e : PyErr)
    (h : reconnect stores mps comps = .error e) : ∃ k, e = .keyError k := by
  induction mps generalizing comps with
  | nil => simp [reconnect] at h
  | cons pr rest ih =>
    obtain ⟨pn, mp⟩ := pr
    cases hrp : reconnectPipe stores mp.store_connections comps with
    | error e2 =>
      simp only [reconnect, hrp] at h
      have he : e2 = e := by simpa using h
      exact he ▸ reconnectPipe_error_shape _ _ _ _ hrp
    | ok comps2 =>
      simp only [reconnect, hrp] at h
      exact ih _ h

theorem reconnectPipe_keys (stores : List (String × StoreInst))
    (conns : List (String × String)) (comps final : List (String × Component))
    (h : reconnectPipe stores conns comps = .ok final) (x : String) :
    dmem final x = dmem comps x := by
  induction conns generalizing comps with
  | nil =>
    simp only [reconnectPipe, Except.ok.injEq] at h
    rw [h]
  | cons pr rest ih =>
    obtain ⟨c, s⟩ := pr
    cases hst : dget? stores s with
    | none => simp [reconnectPipe, hst] at h
    | some st =>
      cases hcm : dget? comps c with
      | none => simp [reconnectPipe, hst, hcm] at h
      | some comp =>
        simp only [reconnectPipe, hst, hcm] at h
        rw [ih _ h, dmem_dset_of_mem _ _ _ _ _ hcm]

theorem reconnectPipe_ok_resolves (stores : List (String × StoreInst))
    (conns : List (String × String)) (comps final : List (String × Component))
    (h : reconnectPipe stores conns comps = .ok final) :
    ∀ pr ∈ conns, dmem stores pr.2 = true ∧ dmem comps pr.1 = true := by
  induction conns generalizing comps with
  | nil => intro pr hpr; simp at hpr
  | cons pr0 rest ih =>
    obtain ⟨c, s⟩ := pr0
    cases hst : dget? stores s with
    | none => simp [reconnectPipe, hst] at h
    | some st =>
      cases hcm : dget? comps c with
      | none => simp [reconnectPipe, hst, hcm] at h
      | some comp =>
        simp only [reconnectPipe, hst, hcm] at h
        intro pr hpr
        rcases List.mem_cons.mp hpr with h2 | h2
        · rw [h2]
          exact ⟨by simp [dmem, hst], by simp [dmem, hcm]⟩
        · have h3 := ih _ h pr h2
          exact ⟨h3.1, by rw [← dmem_dset_of_mem comps c pr.1 _ _ hcm]; exact h3.2⟩

theorem reconnect_keys (stores : List (String × StoreInst))
    (mps : List (String × MPipeline)) (comps final : List (String × Component))
    (h : reconnect stores mps comps = .ok final) (x : String) :
    dmem final x = dmem comps x := by
  induction mps generalizing comps with
  | nil =>
    simp only [reconnect, Except.ok.injEq] at h
    rw [h]
  | cons pr rest ih =>
    obtain ⟨pn, mp⟩ := pr
    cases hrp : reconnectPipe stores mp.store_connections comps with
    | error e2 => simp [reconnect, hrp] at h
    | ok comps2 =>
      simp only [reconnect, hrp] at h
      rw [ih _ h, reconnectPipe_keys _ _ _ _ hrp]

theorem reconnect_ok_resolves (stores : List (String × StoreInst))
    (mps : List (String × MPipeline)) (comps final : List (String × Component))
    (h : reconnect stores mps comps = .ok final) :
    ∀ pmp ∈ mps, ∀ pr ∈ pmp.2.store_connections,
      dmem stores pr.2 = true ∧ dmem comps pr.1 = true := by
  induction mps generalizing comps with
  | nil => intro pmp hpmp; simp at hpmp
  | cons pr0 rest ih =>
    obtain ⟨pn, mp⟩ := pr0
    cases hrp : reconnectPipe stores mp.store_connections comps with
    | error e2 => simp [reconnect, hrp] at h
    | ok comps2 =>
      simp only [reconnect, hrp] at h
      intro pmp hpmp pr hpr
      rcases List.mem_cons.mp hpmp with h2 | h2
      · rw [h2] at hpr
        exact reconnectPipe_ok_resolves _ _ _ _ hrp pr hpr
      · have h3 := ih _ h pmp h2 pr hpr
        exact ⟨h3.1, by rw [← reconnectPipe_keys _ _ _ _ hrp]; exact h3.2⟩

theorem canalsAddFresh_fold_keys (cs : List (String × Bool))
    (st : List (String × Component) × Nat) (k : String) :
    dmem (cs.foldl canalsAddFresh st).1 k = true ↔
      (dmem st.1 k = true ∨ k ∈ cs.map Prod.fst) := by
  induction cs generalizing st with
  | nil => simp
  | cons c rest ih =>
    rw [List.foldl_cons, ih]
    have h2 : dmem (canalsAddFresh st c).1 k = true ↔ (dmem st.1 k = true ∨ k = c.1) := by
      by_cases hk : k = c.1
      · simp [canalsAddFresh, dmem_dset, hk]
      · simp [canalsAddFresh, dmem_dset, hk]
    rw [h2]
    simp only [List.map_cons, List.mem_cons]
    tauto

theorem canalsUnmarshalComponents_keys (data : MDoc) (ctr : Nat) (k : String) :
    dmem (canalsUnmarshalComponents data ctr).1 k = true ↔ k ∈ docCompNames data := by
  have main : ∀ (mps : List (String × MPipeline)) (st : List (String × Component) × Nat),
      dmem (mps.foldl (fun acc pr => pr.2.graphComponents.foldl canalsAddFresh acc) st).1 k = true ↔
        (dmem st.1 k = true ∨ k ∈ mps.flatMap (fun pr => pr.2.graphComponents.map Prod.fst)) := by
    intro mps
    induction mps with
    | nil => simp
    | cons pr rest ih =>
      intro st
      rw [List.foldl_cons, ih, canalsAddFresh_fold_keys]
      simp only [List.flatMap_cons, List.mem_append]
      tauto
  have h2 := main data.pipelines ([], ctr)
  simpa [canalsUnmarshalComponents, docCompNames, dmem, dget?] using h2

/-- C5: `unmarshal_pipelines` applied to a document whose store-connections
table names a store absent from the global `"stores"` table, or a component
absent from the reconstructed component mapping, fails — the binding
resolution of pipeline.py lines 236-237 raises `KeyError` (the spec's
`DanglingBinding`) — and the error result carries no pipeline collection to
the caller. The hypothesis that every store type tag is registered isolates
the dangling binding as the failure being claimed. -/
theorem unmarshal_dangling_binding_fails
    (registry : List String) (data : MDoc) (pn : String) (mp : MPipeline) (c s : String)
    (hreg : ∀ pr ∈ data.stores, registry.contains pr.2.typ = true)
    (hp : (pn, mp) ∈ data.pipelines) (hb : (c, s) ∈ mp.store_connections)
    (hdang : dmem data.stores s = false ∨ c ∉ docCompNames data) :
    ∃ k, unmarshal_pipelines registry data = .error (.keyError k) := by
  obtain ⟨stores, ctr2, hst⟩ := unmarshalStores_ok registry data.stores [] 0 hreg
  cases hrc : reconnect stores data.pipelines (canalsUnmarshalComponents data ctr2).1 with
  | error e =>
    obtain ⟨k, hk⟩ := reconnect_error_shape _ _ _ _ hrc
    refine ⟨k, ?_⟩
    rw [← hk]
    simp [unmarshal_pipelines, hst, hrc]
  | ok comps2 =>
    exfalso
    have hres := reconnect_ok_resolves _ _ _ _ hrc (pn, mp) hp (c, s) hb
    rcases hdang with hd | hd
    · have hkeys := unmarshalStores_keys registry data.stores [] 0 stores ctr2 hst s
      have h5 : dmem stores s = dmem data.stores s := by
        rw [hkeys]
        simp [dmem, dget?]
      have h6 := hres.1
      rw [h5, hd] at h6
      exact absurd h6 (by decide)
    · have hkeys := canalsUnmarshalComponents_keys data ctr2 c
      exact hd (hkeys.mp hres.2)

/-- Witness for C5: a concrete document whose only binding names the store
`"missing"`, absent from the global table. -/
theorem unmarshal_dangling_binding_fails_witness :
    ∃ k, unmarshal_pipelines ["MemoryDocumentStore"]
      { pipelines := [("p1", { graphComponents := [("A", true)],
                               store_connections := [("A", "missing")] })],
        stores := [("r", { typ := "MemoryDocumentStore", hash := none, params := 3 })] }
      = .error (.keyError k) :=
  unmarshal_dangling_binding_fails ["MemoryDocumentStore"]
    { pipelines := [("p1", { graphComponents := [("A", true)],
                             store_connections := [("A", "missing")] })],
      stores := [("r", { typ := "MemoryDocumentStore", hash := none, params := 3 })] }
    "p1" { graphComponents := [("A", true)], store_connections := [("A", "missing")] }
    "A" "missing" (by decide) (by decide) (by decide) (by decide)

theorem mem_map_dset {α β : Type} (f : String × α → β) (l : List (String × α))
    (k : String) (v : α) (x : β)
    (h : x ∈ (dset l k v).map f) : x ∈ l.map f ∨ x = f (k, v) := by
  simp only [List.mem_map] at h
  obtain ⟨pr, hpr, hx⟩ := h
  rcases mem_dset l k v pr hpr with h2 | h2
  · left
    exact List.mem_map.mpr ⟨pr, h2, hx⟩
  · right
    rw [← hx, h2]

theorem dset_ids_nodup (l : List (String × StoreInst)) (k : String) (v : StoreInst)
    (hn : (l.map (fun pr => pr.2.id)).Nodup)
    (hv : v.id ∉ l.map (fun pr => pr.2.id)) :
    ((dset l k v).map (fun pr => pr.2.id)).Nodup := by
  induction l with
  | nil => simp [dset]
  | cons pr rest ih =>
    obtain ⟨k2, v2⟩ := pr
    simp only [List.map_cons, List.nodup_cons] at hn
    simp only [List.map_cons, List.mem_cons] at hv
    push_neg at hv
    by_cases h2 : k2 = k
    · have hd : dset ((k2, v2) :: rest) k v = (k2, v) :: rest := by simp [dset, h2]
      rw [hd]
      simp only [List.map_cons, List.nodup_cons]
      exact ⟨hv.2, hn.2⟩
    · have hd : dset ((k2, v2) :: rest) k v = (k2, v2) :: dset rest k v := by simp [dset, h2]
      rw [hd]
      simp only [List.map_cons, List.nodup_cons]
      refine ⟨fun hc => ?_, ih hn.2 hv.2⟩
      rcases mem_map_dset (fun pr => pr.2.id) rest k v v2.id hc with h3 | h3
      · exact hn.1 h3
      · exact hv.1 h3.symm

theorem unmarshalStores_ids (registry : List String) (entries : List (String × MStore))
    (acc : List (String × StoreInst)) (ctr : Nat) (res : List (String × StoreInst)) (ctr2 : Nat)
    (h : unmarshalStores registry entries acc ctr = .ok (res, ctr2))
    (hn : (acc.map (fun pr => pr.2.id)).Nodup)
    (hb : ∀ pr ∈ acc, pr.2.id < ctr) :
    (res.map (fun pr => pr.2.id)).Nodup ∧ ∀ pr ∈ res, pr.2.id < ctr2 := by
  induction entries generalizing acc ctr with
  | nil =>
    simp only [unmarshalStores, Except.ok.injEq, Prod.mk.injEq] at h
    rw [← h.1, ← h.2]
    exact ⟨hn, hb⟩
  | cons pr rest ih =>
    obtain ⟨n, m⟩ := pr
    simp only [unmarshalStores] at h
    by_cases hr : registry.contains m.typ = true
    · rw [if_pos hr] at h
      have hvfresh : (store_from_dict m ctr).id ∉ acc.map (fun pr => pr.2.id) := by
        intro hc
        simp only [List.mem_map] at hc
        obtain ⟨q, hq, hid⟩ := hc
        have := hb q hq
        rw [hid] at this
        simp [store_from_dict] at this
      refine ih (dset acc n (store_from_dict m ctr)) (ctr + 1) h
        (dset_ids_nodup acc n _ hn hvfresh) ?_
      intro q hq
      rcases mem_dset acc n (store_from_dict m ctr) q hq with h3 | h3
      · exact Nat.lt_trans (hb q h3) (Nat.lt_succ_self ctr)
      · rw [h3]
        simp [store_from_dict]
    · rw [if_neg hr] at h
      simp at h

theorem dget?_id_inj (l : List (String × StoreInst)) (k1 k2 : String) (v1 v2 : StoreInst)
    (hn : (l.map (fun pr => pr.2.id)).Nodup)
    (h1 : dget? l k1 = some v1) (h2 : dget? l k2 = some v2) (hid : v1.id = v2.id) :
    k1 = k2 := by
  induction l with
  | nil => simp [dget?] at h1
  | cons pr rest ih =>
    obtain ⟨k0, v0⟩ := pr
    simp only [List.map_cons, List.nodup_cons] at hn
    by_cases e1 : k0 = k1 <;> by_cases e2 : k0 = k2
    · exact e1.symm.trans e2
    · exfalso
      simp only [dget?, if_pos e1, Option.some.injEq] at h1
      simp only [dget?, if_neg e2] at h2
      have hmem : v2.id ∈ rest.map (fun pr => pr.2.id) :=
        List.mem_map.mpr ⟨(k2, v2), dget?_mem rest k2 v2 h2, rfl⟩
      rw [← hid, ← h1] at hmem
      exact hn.1 hmem
    · exfalso
      simp only [dget?, if_pos e2, Option.some.injEq] at h2
      simp only [dget?, if_neg e1] at h1
      have hmem : v1.id ∈ rest.map (fun pr => pr.2.id) :=
        List.mem_map.mpr ⟨(k1, v1), dget?_mem rest k1 v1 h1, rfl⟩
      rw [hid, ← h2] at hmem
      exact hn.1 hmem
    · simp only [dget?, if_neg e1] at h1
      simp only [dget?, if_neg e2] at h2
      exact ih hn.2 h1 h2

theorem reconnectPipe_untouched (stores : List (String × StoreInst))
    (conns : List (String × String)) (comps final : List (String × Component))
    (h : reconnectPipe stores conns comps = .ok final) (c : String)
    (hc : c ∉ conns.map Prod.fst) :
    dget? final c = dget? comps c := by
  induction conns generalizing comps with
  | nil =>
    simp only [reconnectPipe, Except.ok.injEq] at h
    rw [h]
  | cons pr rest ih =>
    obtain ⟨c0, s0⟩ := pr
    simp only [List.map_cons, List.mem_cons] at hc
    push_neg at hc
    cases hst : dget? stores s0 with
    | none => simp [reconnectPipe, hst] at h
    | some st =>
      cases hcm : dget? comps c0 with
      | none => simp [reconnectPipe, hst, hcm] at h
      | some comp =>
        simp only [reconnectPipe, hst, hcm] at h
        rw [ih _ h hc.2, dget?_dset_ne _ _ _ _ hc.1]

theorem reconnectPipe_binding (stores : List (String × StoreInst))
    (conns : List (String × String)) (comps final : List (String × Component))
    (h : reconnectPipe stores conns comps = .ok final)
    (hnd : (conns.map Prod.fst).Nodup)
    (c s : String) (hb : (c, s) ∈ conns) :
    ∃ st comp, dget? stores s = some st ∧ dget? final c = some comp ∧
      comp.document_store = some st := by
  induction conns generalizing comps with
  | nil => simp at hb
  | cons pr rest ih =>
    obtain ⟨c0, s0⟩ := pr
    simp only [List.map_cons, List.nodup_cons] at hnd
    cases hst : dget? stores s0 with
    | none => simp [reconnectPipe, hst] at h
    | some st0 =>
      cases hcm : dget? comps c0 with
      | none => simp [reconnectPipe, hst, hcm] at h
      | some comp0 =>
        simp only [reconnectPipe, hst, hcm] at h
        rcases List.mem_cons.mp hb with h2 | h2
        · rw [Prod.mk.injEq] at h2
          obtain ⟨hcc, hss⟩ := h2
          subst hcc
          subst hss
          refine ⟨st0, { comp0 with document_store := some st0 }, hst, ?_, rfl⟩
          rw [reconnectPipe_untouched stores rest _ final h c hnd.1, dget?_dset_self]
        · exact ih _ h hnd.2 h2

theorem reconnect_untouched (stores : List (String × StoreInst))
    (mps : List (String × MPipeline)) (comps final : List (String × Component))
    (h : reconnect stores mps comps = .ok final) (c : String)
    (hc : ∀ pmp ∈ mps, c ∉ pmp.2.store_connections.map Prod.fst) :
    dget? final c = dget? comps c := by
  induction mps generalizing comps with
  | nil =>
    simp only [reconnect, Except.ok.injEq] at h
    rw [h]
  | cons pr rest ih =>
    obtain ⟨pn, mp⟩ := pr
    cases hrp : reconnectPipe stores mp.store_connections comps with
    | error e => simp [reconnect, hrp] at h
    | ok comps2 =>
      simp only [reconnect, hrp] at h
      rw [ih _ h (fun q hq => hc q (List.mem_cons_of_mem _ hq)),
          reconnectPipe_untouched _ _ _ _ hrp c (hc (pn, mp) (List.mem_cons_self _ _))]

theorem reconnect_binding (stores : List (String × StoreInst))
    (mps : List (String × MPipeline)) (comps final : List (String × Component))
    (h : reconnect stores mps comps = .ok final)
    (hnd : ((mps.flatMap (fun pr => pr.2.store_connections)).map Prod.fst).Nodup)
    (pn : String) (mp : MPipeline) (c s : String)
    (hp : (pn, mp) ∈ mps) (hb : (c, s) ∈ mp.store_connections) :
    ∃ st comp, dget? stores s = some st ∧ dget? final c = some comp ∧
      comp.document_store = some st := by
  induction mps generalizing comps with
  | nil => simp at hp
  | cons pr rest ih =>
    obtain ⟨pn0, mp0⟩ := pr
    rw [List.flatMap_cons, List.map_append, List.nodup_append] at hnd
    obtain ⟨hnd1, hnd2, hdisj⟩ := hnd
    cases hrp : reconnectPipe stores mp0.store_connections comps with
    | error e => simp [reconnect, hrp] at h
    | ok comps2 =>
      simp only [reconnect, hrp] at h
      rcases List.mem_cons.mp hp with h2 | h2
      · rw [Prod.mk.injEq] at h2
        obtain ⟨hpn, hmp⟩ := h2
        subst hmp
        obtain ⟨st, comp, hs, hf, hds⟩ := reconnectPipe_binding _ _ _ _ hrp hnd1 c s hb
        refine ⟨st, comp, hs, ?_, hds⟩
        have hcmem : c ∈ mp.store_connections.map Prod.fst :=
          List.mem_map.mpr ⟨(c, s), hb, rfl⟩
        have hnotin : ∀ q ∈ rest, c ∉ q.2.store_connections.map Prod.fst := by
          intro q hq hcq
          simp only [List.mem_map] at hcq
          obtain ⟨b, hbmem, hbc⟩ := hcq
          have hc2 : c ∈ (rest.flatMap (fun pr => pr.2.store_connections)).map Prod.fst :=
            List.mem_map.mpr ⟨b, List.mem_flatMap.mpr ⟨q, hq, hbmem⟩, hbc⟩
          exact hdisj hcmem hc2
        rw [reconnect_untouched _ _ _ _ h c hnotin]
        exact hf
      · exact ih _ h hnd2 h2

theorem canalsUnmarshalPipelines_component (data : MDoc) (comps : List (String × Component))
    (q : String) (P : Pipeline) (c : String) (comp : Component)
    (hq : (q, P) ∈ canalsUnmarshalPipelines data comps)
    (hc : (c, comp) ∈ P.components) :
    dget? comps c = some comp := by
  simp only [canalsUnmarshalPipelines, List.mem_map] at hq
  obtain ⟨pr, hpr, heq⟩ := hq
  rw [Prod.mk.injEq] at heq
  rw [← heq.2] at hc
  simp only [List.mem_filterMap] at hc
  obtain ⟨a, _, hfa⟩ := hc
  cases hg : dget? comps a.1 with
  | none => rw [hg] at hfa; simp at hfa
  | some x =>
    rw [hg] at hfa
    have h5 : (a.1, x) = (c, comp) := by simpa using hfa
    rw [Prod.mk.injEq] at h5
    rw [← h5.1, ← h5.2]
    exact hg

/-- C3: `unmarshal_pipelines` builds exactly one store instance per entry of
the global `"stores"` table and hands that same instance (same object
identity, not a value-equal copy) to every component named for that entry in
any pipeline's store-connections table — so components bound to the same
store name share one instance after a marshal/unmarshal round trip, while
components bound to different names receive distinct instances. Stated over
any document with at most one binding per component (as every
marshalled document has, component names being unique per pipeline dict and
across the canals graph). -/
theorem unmarshal_shares_one_instance_per_store
    (registry : List String) (data : MDoc) (pipes : List (String × Pipeline))
    (h : unmarshal_pipelines registry data = .ok pipes)
    (hB : ((allBindings data).map Prod.fst).Nodup)
    (pn1 pn2 q1 q2 : String) (mp1 mp2 : MPipeline) (c1 s1 c2 s2 : String)
    (P1 P2 : Pipeline) (comp1 comp2 : Component)
    (hp1 : (pn1, mp1) ∈ data.pipelines) (hb1 : (c1, s1) ∈ mp1.store_connections)
    (hp2 : (pn2, mp2) ∈ data.pipelines) (hb2 : (c2, s2) ∈ mp2.store_connections)
    (hq1 : (q1, P1) ∈ pipes) (hc1 : (c1, comp1) ∈ P1.components)
    (hq2 : (q2, P2) ∈ pipes) (hc2 : (c2, comp2) ∈ P2.components) :
    comp1.document_store.isSome = true ∧
    (s1 = s2 → comp1.document_store = comp2.document_store) ∧
    (s1 ≠ s2 → comp1.document_store ≠ comp2.document_store) := by
  cases hst : unmarshalStores registry data.stores [] 0 with
  | error e =>
    rw [unmarshal_pipelines, hst] at h
    exact absurd h (by simp)
  | ok pr =>
    obtain ⟨stores, ctr⟩ := pr
    cases hrc : reconnect stores data.pipelines (canalsUnmarshalComponents data ctr).1 with
    | error e =>
      rw [unmarshal_pipelines, hst] at h
      simp only [hrc] at h
      exact absurd h (by simp)
    | ok comps2 =>
      rw [unmarshal_pipelines, hst] at h
      simp only [hrc, Except.ok.injEq] at h
      have hids := unmarshalStores_ids registry data.stores [] 0 stores ctr hst
        (by simp) (by simp)
      simp only [allBindings] at hB
      obtain ⟨st1, compA, hs1, hf1, hds1⟩ :=
        reconnect_binding _ _ _ _ hrc hB pn1 mp1 c1 s1 hp1 hb1
      obtain ⟨st2, compB, hs2, hf2, hds2⟩ :=
        reconnect_binding _ _ _ _ hrc hB pn2 mp2 c2 s2 hp2 hb2
      rw [← h] at hq1 hq2
      have hcc1 := canalsUnmarshalPipelines_component data comps2 q1 P1 c1 comp1 hq1 hc1
      have hcc2 := canalsUnmarshalPipelines_component data comps2 q2 P2 c2 comp2 hq2 hc2
      rw [hcc1] at hf1
      rw [hcc2] at hf2
      have he1 : comp1 = compA := Option.some.inj hf1
      have he2 : comp2 = compB := Option.some.inj hf2
      subst he1
      subst he2
      refine ⟨by rw [hds1]; rfl, fun heq => ?_, fun hne => ?_⟩
      · rw [heq] at hs1
        rw [hs1] at hs2
        have h6 : st1 = st2 := Option.some.inj hs2
        rw [hds1, hds2, h6]
      · intro hceq
        rw [hds1, hds2] at hceq
        have hsteq : st1 = st2 := Option.some.inj hceq
        exact hne (dget?_id_inj stores s1 s2 st1 st2 hids.1 hs1 hs2 (by rw [hsteq]))

/-- Witness for C3: a concrete two-pipeline document in which components
`"A"` and `"C"` are both bound to the store entry `"r"`; after unmarshaling
they hold the identical store instance. -/
theorem unmarshal_shares_one_instance_per_store_witness :
    (some { id := 0, marker := true, typ := "Mem", hash := 3, params := 3 } : Option StoreInst) =
    some { id := 0, marker := true, typ := "Mem", hash := 3, params := 3 } := by
  have h := unmarshal_shares_one_instance_per_store ["Mem"]
    ⟨[("p1", ⟨[("A", true), ("B", false)], [("A", "r")]⟩),
      ("p2", ⟨[("C", true)], [("C", "r")]⟩)],
     [("r", ⟨"Mem", none, 3⟩)]⟩
    [("p1", ⟨[], [], [("A", ⟨1, true, some ⟨0, true, "Mem", 3, 3⟩, none⟩),
                      ("B", ⟨2, false, none, none⟩)]⟩),
     ("p2", ⟨[], [], [("C", ⟨3, true, some ⟨0, true, "Mem", 3, 3⟩, none⟩)]⟩)]
    (by decide) (by decide)
    "p1" "p2" "p1" "p2"
    ⟨[("A", true), ("B", false)], [("A", "r")]⟩ ⟨[("C", true)], [("C", "r")]⟩
    "A" "r" "C" "r"
    ⟨[], [], [("A", ⟨1, true, some ⟨0, true, "Mem", 3, 3⟩, none⟩),
              ("B", ⟨2, false, none, none⟩)]⟩
    ⟨[], [], [("C", ⟨3, true, some ⟨0, true, "Mem", 3, 3⟩, none⟩)]⟩
    ⟨1, true, some ⟨0, true, "Mem", 3, 3⟩, none⟩
    ⟨3, true, some ⟨0, true, "Mem", 3, 3⟩, none⟩
    (by decide) (by decide) (by decide) (by decide)
    (by decide) (by decide) (by decide) (by decide)
  exact h.2.1 rfl

theorem bindingInvariantB_iff (p : Pipeline) :
    bindingInvariantB p = true ↔
      ∀ pr ∈ p.document_stores_connections, ∃ comp st,
        dget? p.components pr.1 = some comp ∧ dget? p.document_stores pr.2 = some st ∧
        comp.document_store_name = some pr.2 ∧ comp.document_store = some st := by
  rw [bindingInvariantB, List.all_eq_true]
  constructor
  · intro h pr hpr
    have h2 := h pr hpr
    cases hc : dget? p.components pr.1 with
    | none =>
      cases hst : dget? p.document_stores pr.2 with
      | none => rw [hc, hst] at h2; simp at h2
      | some st => rw [hc, hst] at h2; simp at h2
    | some comp =>
      cases hst : dget? p.document_stores pr.2 with
      | none => rw [hc, hst] at h2; simp at h2
      | some st =>
        rw [hc, hst] at h2
        simp only [Bool.and_eq_true, beq_iff_eq] at h2
        exact ⟨comp, st, rfl, rfl, h2.1, h2.2⟩
  · intro h pr hpr
    obtain ⟨comp, st, hc, hst, h1, h2⟩ := h pr hpr
    rw [hc, hst]
    simp [h1, h2]

theorem add_component_ok_shape (p : Pipeline) (n : String) (i : Component) (ds : Option String)
    (hok : ((p.add_component n i ds).2.2).isNone = true) :
    dmem p.components n = false ∧
    (p.add_component n i ds).1.document_stores = p.document_stores ∧
    ((∃ k st, ds = some k ∧ i.document_store = none ∧ dget? p.document_stores k = some st ∧
        (p.add_component n i ds).1.document_stores_connections =
          dset p.document_stores_connections n k ∧
        (p.add_component n i ds).1.components =
          p.components ++ [(n, { i with document_store := some st, document_store_name := some k })]) ∨
      ((p.add_component n i ds).1.document_stores_connections = p.document_stores_connections ∧
       (p.add_component n i ds).1.components = p.components ++ [(n, i)])) := by
  by_cases ha : i.storeAware = true
  case neg =>
    by_cases hts : strTruthy ds = true
    · simp [Pipeline.add_component, ha, hts] at hok
    · by_cases hd : dmem p.components n = true
      · simp [Pipeline.add_component, canalsAddComponent, ha, hts, hd] at hok
      · refine ⟨by simpa using hd, ?_, Or.inr ⟨?_, ?_⟩⟩ <;>
          simp [Pipeline.add_component, canalsAddComponent, ha, hts, hd]
  case pos =>
    by_cases hc1 : (strTruthy ds && i.document_store.isSome) = true
    · cases hcn : dget? p.document_stores_connections n with
      | none => simp [Pipeline.add_component, ha, hc1, hcn] at hok
      | some conn => simp [Pipeline.add_component, ha, hc1, hcn] at hok
    · by_cases hc2 : (!strTruthy ds && i.document_store.isNone) = true
      · simp [Pipeline.add_component, ha, hc1, hc2] at hok
      · by_cases hc3 : dmemOpt p.document_stores ds = true
        · by_cases hin : i.document_store.isNone = true
          · cases hds : ds with
            | none =>
              rw [hds] at hc3
              simp [dmemOpt] at hc3
            | some k =>
              rw [hds] at hc3
              simp only [dmemOpt] at hc3
              cases hst : dget? p.document_stores k with
              | none =>
                rw [dmem, hst] at hc3
                simp at hc3
              | some st =>
                have hnone : i.document_store = none := Option.isNone_iff_eq_none.mp hin
                have hstt : strTruthy (some k) = true := by
                  rcases Bool.eq_false_or_eq_true (strTruthy (some k)) with hx | hx
                  · exact hx
                  · rw [hds] at hc2
                    exact absurd (by simp [hx, hin]) hc2
                by_cases hd : dmem p.components n = true
                · simp [Pipeline.add_component, canalsAddComponent, ha, hds, hstt, hnone,
                        dmemOpt, hc3, hst, hd] at hok
                · refine ⟨by simpa using hd, ?_,
                    Or.inl ⟨k, st, rfl, hnone, hst, ?_, ?_⟩⟩ <;>
                    simp [Pipeline.add_component, canalsAddComponent, ha, hds, hstt, hnone,
                          dmemOpt, hc3, hst, hd]
          · by_cases hd : dmem p.components n = true
            · simp [Pipeline.add_component, canalsAddComponent, ha, hc1, hc2, hc3, hin, hd] at hok
            · refine ⟨by simpa using hd, ?_, Or.inr ⟨?_, ?_⟩⟩ <;>
                simp [Pipeline.add_component, canalsAddComponent, ha, hc1, hc2, hc3, hin, hd]
        · simp [Pipeline.add_component, ha, hc1, hc2, hc3] at hok

theorem nodup_keys_append_fresh {α : Type} (l : List (String × α)) (n : String) (v : α)
    (hn : (l.map Prod.fst).Nodup) (hfresh : dmem l n = false) :
    ((l ++ [(n, v)]).map Prod.fst).Nodup := by
  rw [List.map_append, List.nodup_append]
  refine ⟨hn, by simp, fun a ha hb => ?_⟩
  simp only [List.map_cons, List.map_nil, List.mem_singleton] at hb
  rw [hb] at ha
  have h2 : dget? l n = none := by
    cases hg : dget? l n with
    | none => rfl
    | some x =>
      rw [dmem, hg] at hfresh
      simp at hfresh
  exact (dget?_eq_none_iff l n).mp h2 ha

theorem runOp_preserves (p : Pipeline) (op : PipeOp)
    (hwf : pipelineWF p) (hinv : bindingInvariantB p = true) (hok : opOk p op = true) :
    pipelineWF (runOp p op) ∧ bindingInvariantB (runOp p op) = true := by
  cases op with
  | addStore n s =>
    simp only [runOp, Pipeline.add_document_store]
    by_cases hm : s.marker = true
    · have hcond : (!s.marker) = false := by rw [hm]; rfl
      rw [hcond]
      simp only [Bool.false_eq_true, if_false]
      constructor
      · exact ⟨hwf.1, nodup_map_fst_dset _ _ _ hwf.2.1, hwf.2.2⟩
      · rw [bindingInvariantB_iff] at hinv ⊢
        intro pr hpr
        obtain ⟨comp, st, hc, hst, h1, h2⟩ := hinv pr hpr
        refine ⟨comp, st, hc, ?_, h1, h2⟩
        have hne : pr.2 ≠ n := by
          simp only [opOk, List.all_eq_true] at hok
          have h3 := hok pr hpr
          simpa using h3
        simp only
        rw [dget?_dset_ne _ _ _ _ hne]
        exact hst
    · have hcond : (!s.marker) = true := by
        rcases Bool.eq_false_or_eq_true s.marker with hx | hx
        · exact absurd hx hm
        · rw [hx]; rfl
      rw [hcond]
      simp only [if_true]
      exact ⟨hwf, hinv⟩
  | addComp n i ds =>
    simp only [runOp]
    have hok2 : ((p.add_component n i ds).2.2).isNone = true := by
      simpa [opOk] using hok
    obtain ⟨hfresh, hstores, hcases⟩ := add_component_ok_shape p n i ds hok2
    have hfresh2 : dget? p.components n = none := by
      cases hg : dget? p.components n with
      | none => rfl
      | some x =>
        rw [dmem, hg] at hfresh
        simp at hfresh
    rcases hcases with ⟨k, st, hds, hnone, hst, hconns, hcomps⟩ | ⟨hconns, hcomps⟩
    · constructor
      · refine ⟨?_, ?_, ?_⟩
        · rw [hconns]
          exact nodup_map_fst_dset _ _ _ hwf.1
        · rw [hstores]
          exact hwf.2.1
        · rw [hcomps]
          exact nodup_keys_append_fresh _ _ _ hwf.2.2 hfresh
      · rw [bindingInvariantB_iff] at hinv ⊢
        intro pr hpr
        rw [hconns] at hpr
        rw [hcomps, hstores]
        rcases mem_dset _ _ _ _ hpr with h2 | h2
        · obtain ⟨comp, st2, hc, hst2, h1a, h2a⟩ := hinv pr h2
          exact ⟨comp, st2, dget?_append_left _ _ _ _ hc, hst2, h1a, h2a⟩
        · rw [h2]
          refine ⟨{ i with document_store := some st, document_store_name := some k }, st, ?_, hst, rfl, rfl⟩
          rw [dget?_append_right _ _ _ hfresh2]
          simp [dget?]
    · constructor
      · refine ⟨?_, ?_, ?_⟩
        · rw [hconns]
          exact hwf.1
        · rw [hstores]
          exact hwf.2.1
        · rw [hcomps]
          exact nodup_keys_append_fresh _ _ _ hwf.2.2 hfresh
      · rw [bindingInvariantB_iff] at hinv ⊢
        intro pr hpr
        rw [hconns] at hpr
        rw [hcomps, hstores]
        obtain ⟨comp, st2, hc, hst2, h1a, h2a⟩ := hinv pr hpr
        exact ⟨comp, st2, dget?_append_left _ _ _ _ hc, hst2, h1a, h2a⟩

/-- C8 counterexample: the claim as stated is false on the code — starting
from the empty (well-formed) pipeline, registering store `"s"`, attaching a
store-aware component `"c"` to it, and then calling `add_document_store`
again with the same name `"s"` and a different instance overwrites the
registered entry while the component keeps the old instance, so the
symmetric binding invariant no longer holds after the sequence. -/
theorem binding_invariant_broken_by_store_overwrite :
    pipelineWF { document_stores_connections := [], document_stores := [], components := [] } ∧
    bindingInvariantB
      { document_stores_connections := [], document_stores := [], components := [] } = true ∧
    bindingInvariantB
      (runOps { document_stores_connections := [], document_stores := [], components := [] }
        [.addStore "s" { id := 1, marker := true, typ := "Mem", hash := 1, params := 1 },
         .addComp "c" { id := 30, storeAware := true, document_store := none,
                        document_store_name := none } (some "s"),
         .addStore "s" { id := 2, marker := true, typ := "Mem", hash := 2, params := 2 }])
      = false := by
  exact ⟨by decide, by decide, by decide⟩

/-- C8 (amended): every sequence of `add_component` and `add_document_store`
operations on a well-formed pipeline preserves the symmetric binding
invariant, provided each `add_component` call completes without raising and
each `add_document_store` call registers a name that no current
store-connections entry refers to. (The counterexample forces the second
condition — re-registering a referenced name swaps the instance out from
under the bound component — and a failed `add_component` can leave a
half-written binding, per C10, forcing the first.) -/
theorem binding_invariant_preserved_by_safe_ops (p : Pipeline) (ops : List PipeOp)
    (hwf : pipelineWF p) (hinv : bindingInvariantB p = true) (hok : opsOk p ops = true) :
    bindingInvariantB (runOps p ops) = true := by
  induction ops generalizing p with
  | nil => exact hinv
  | cons op rest ih =>
    simp only [opsOk, Bool.and_eq_true] at hok
    obtain ⟨hwf2, hinv2⟩ := runOp_preserves p op hwf hinv hok.1
    exact ih (runOp p op) hwf2 hinv2 hok.2

/-- Witness for the amended C8: registering a store and binding a component
to it through `add_component` keeps the invariant. -/
theorem binding_invariant_preserved_by_safe_ops_witness :
    bindingInvariantB
      (runOps { document_stores_connections := [], document_stores := [], components := [] }
        [.addStore "s" { id := 1, marker := true, typ := "Mem", hash := 1, params := 1 },
         .addComp "c" { id := 30, storeAware := true, document_store := none,
                        document_store_name := none } (some "s")]) = true :=
  binding_invariant_preserved_by_safe_ops _ _ (by decide) (by decide) (by decide)
